import Mathlib

/-!
# LAF OS library: the X11 Skia window (`os/skia/skia_window_x11.cpp`)

A shallow embedding of `convert_skia_bitmap_to_ximage`, `SkiaWindow::onPaint`,
`SkiaWindow::onQueueEvent` and `SkiaWindow::onResize`.

Conventions of the embedding:

* C++ `int` values are `Int`, `size_t` values are `Nat`; `/` on `int` is
  `Int.tdiv` (truncation toward zero).  The quantities are extents and strides
  of X11 windows and of their surfaces, which stay within 31 bits, so no
  wrap-around is modelled; the scale of a window is a positive factor.
* Calls into Xlib and Skia whose outcome is decided outside this repository
  (`XInitImage`, `SkBitmap::installPixels`) are parameters, collected in `Env`.
* Every call that a window method issues on a collaborator is recorded, in
  program order, in a list of `Call`s.
* Pixel contents are not modelled; a pixel pointer is modelled by the storage
  it points into (`Pixels`).
-/

namespace os

/-! ## Geometry (`gfx/rect.h`, `gfx/size.h`) -/

/-- The class `gfx::Rect`: origin and extent, all `int`. -/
structure Rect where
  x : Int
  y : Int
  w : Int
  h : Int
deriving DecidableEq

/-- The class `gfx::Size`. -/
structure Size where
  w : Int
  h : Int
deriving DecidableEq

/-! ## Skia values -/

/-- Storage a pixel pointer refers to: the pixels of the display's surface, or
element 0 of the window's scratch vector `m_buffer`. -/
inductive Pixels where
  | surface
  | scratch
deriving DecidableEq

/-- The Skia class `SkImageInfo`.  The colour type is represented by the
attribute the window code depends on, its number of bytes per pixel. -/
structure SkImageInfo where
  width : Int
  height : Int
  bytesPerPixel : Nat
  alphaType : Nat
deriving DecidableEq

/-- The factory `SkImageInfo::Make(width, height, colorType, alphaType)`. -/
def SkImageInfo.Make (width height : Int) (bytesPerPixel alphaType : Nat) : SkImageInfo :=
  { width := width, height := height, bytesPerPixel := bytesPerPixel, alphaType := alphaType }

/-- Skia library routine `SkImageInfo::minRowBytes()`: the minimum bytes per
row, `width * bytesPerPixel`, for a non-negative width and a product within 32
bits. -/
def SkImageInfo.minRowBytes (info : SkImageInfo) : Nat :=
  (info.width * info.bytesPerPixel).toNat

/-- Skia library routine `SkImageInfo::computeByteSize(rowBytes)`: the storage
required by the pixel array; zero if the height is zero, otherwise
`(height - 1) * rowBytes + width * bytesPerPixel`, for non-negative dimensions
and a result within `size_t`. -/
def SkImageInfo.computeByteSize (info : SkImageInfo) (rowBytes : Nat) : Nat :=
  if info.height = 0 then 0
  else ((info.height - 1) * rowBytes + info.width * info.bytesPerPixel).toNat

/-- The Skia class `SkBitmap`: image info, row stride and pixel storage. -/
structure SkBitmap where
  info : SkImageInfo
  rowBytes : Nat
  pixels : Pixels
deriving DecidableEq

/-- The accessor `SkBitmap::width()`. -/
def SkBitmap.width (bitmap : SkBitmap) : Int := bitmap.info.width

/-- The accessor `SkBitmap::height()`. -/
def SkBitmap.height (bitmap : SkBitmap) : Int := bitmap.info.height

/-- The accessor `SkBitmap::bytesPerPixel()`. -/
def SkBitmap.bytesPerPixel (bitmap : SkBitmap) : Int := bitmap.info.bytesPerPixel

/-- The class `SkIRect` as built by `SkIRect::MakeXYWH`. -/
structure SkIRect where
  x : Int
  y : Int
  w : Int
  h : Int
deriving DecidableEq

/-! ## Xlib values -/

/-- Xlib constant `ZPixmap` (`X.h`). -/
def ZPixmap : Int := 2

/-- Xlib constant `LSBFirst` (`X.h`). -/
def LSBFirst : Int := 0

/-- The Xlib structure `XImage`, the fields that `convert_skia_bitmap_to_ximage`
assigns, and `xoffset`, which the `memset` leaves at zero. -/
structure XImage where
  width : Int
  height : Int
  xoffset : Int
  format : Int
  data : Pixels
  byte_order : Int
  bitmap_unit : Int
  bitmap_bit_order : Int
  bitmap_pad : Int
  depth : Int
  bytes_per_line : Int
  bits_per_pixel : Int
deriving DecidableEq

/-! ## Events (`os/event.h`) -/

/-- Identity of a display (the pointer `SkiaDisplay*`). -/
abbrev DisplayId := Nat

/-- The enumeration `Event::Type`: the default type of a fresh `Event`, the
resize type used by the window, and the other kinds sharing the queue. -/
inductive EventType where
  | None
  | ResizeDisplay
  | Other (tag : Nat)
deriving DecidableEq

/-- The class `Event`: what `onResize` and `onQueueEvent` set on it. -/
structure Event where
  type : EventType
  display : Option DisplayId
deriving DecidableEq

/-- A default-constructed `Event`. -/
def Event.new : Event := { type := EventType.None, display := none }

/-- The setter `Event::setType`. -/
def Event.setType (ev : Event) (t : EventType) : Event := { ev with type := t }

/-- The setter `Event::setDisplay`. -/
def Event.setDisplay (ev : Event) (d : DisplayId) : Event := { ev with display := some d }

/-! ## Recorded calls -/

/-- A call issued by a window method on a collaborator, with its arguments. -/
inductive Call where
  /-- Xlib `XPutImage(display, handle, gc, &image, src_x, src_y, dest_x, dest_y, width, height)` -/
  | XPutImage (image : XImage) (src_x src_y dest_x dest_y width height : Int)
  /-- Skia `scaled.installPixels(info, &m_buffer[0], rowBytes)`, with the size of
  `m_buffer` at the time of the call -/
  | installPixels (info : SkImageInfo) (bufferSize rowBytes : Nat)
  /-- Skia `canvas.drawBitmapRect(bitmap, srcRect, dstRect, &paint, kStrict)` -/
  | drawBitmapRect (srcRect dstRect : SkIRect)
  /-- The call `m_queue->queueEvent(ev)` -/
  | queueEvent (ev : Event)
  /-- The call `EventQueueWithResizeDisplay::setResizeDisplayEvent(ev)` -/
  | setResizeDisplayEvent (ev : Event)
  /-- The call `m_resizeSurface.make(m_display)` -/
  | make (display : DisplayId)
  /-- The call `m_display->resize(sz)` -/
  | resize (display : DisplayId) (sz : Size)
  /-- The call `m_resizeSurface.draw(m_display)` -/
  | draw (display : DisplayId)
deriving DecidableEq

/-! ## The native image adapter -/

/-- The descriptor that `convert_skia_bitmap_to_ximage` fills in before it
calls `XInitImage` (the `memset` and the eleven assignments).  The stride
`rowBytes() - 4 * width()` is computed in `size_t` and stored in an `int`; within
31 bits that is the integer difference, negative when `rowBytes < 4 * width`. -/
def ximage_of_bitmap (bitmap : SkBitmap) : XImage :=
  let bpp : Int := 8 * bitmap.bytesPerPixel
  { width := bitmap.width
    height := bitmap.height
    xoffset := 0
    format := ZPixmap
    data := bitmap.pixels
    byte_order := LSBFirst
    bitmap_unit := bpp
    bitmap_bit_order := LSBFirst
    bitmap_pad := bpp
    depth := 24
    bytes_per_line := (bitmap.rowBytes : Int) - 4 * bitmap.width
    bits_per_pixel := bpp }

/-- The function `convert_skia_bitmap_to_ximage(bitmap, image)`: fills the
descriptor and returns the status of `XInitImage` together with the image as
`XInitImage` left it. -/
def convert_skia_bitmap_to_ximage (XInitImage : XImage → Bool × XImage)
    (bitmap : SkBitmap) : Bool × XImage :=
  XInitImage (ximage_of_bitmap bitmap)

/-- Xlib library routine `XInitImage`, after its reference implementation
(`ImUtil.c`): the macro `ROUNDUP(nbits, pad)`. -/
def ROUNDUP (nbits pad : Int) : Int :=
  ((nbits + (pad - 1)).tdiv pad) * (pad.tdiv 8)

/-- Xlib library routine `XInitImage`, after its reference implementation
(`ImUtil.c`) for the `ZPixmap` format: rejects a descriptor with an unsupported
depth, unit, pad or offset, fills `bytes_per_line` in when it is zero and
rejects a non-zero `bytes_per_line` below the minimum. -/
def XInitImage_xlib (image : XImage) : Bool × XImage :=
  if image.depth = 0 ∨ image.depth > 32 ∨ image.bits_per_pixel > 32 ∨ image.bitmap_unit > 32
      ∨ image.bits_per_pixel < 0 ∨ image.bitmap_unit < 0 ∨ image.format ≠ ZPixmap
      ∨ (image.bitmap_pad ≠ 8 ∧ image.bitmap_pad ≠ 16 ∧ image.bitmap_pad ≠ 32)
      ∨ image.xoffset < 0 then (false, image)
  else
    let min_bytes_per_line := ROUNDUP (image.bits_per_pixel * image.width) image.bitmap_pad
    if image.bytes_per_line = 0 then (true, { image with bytes_per_line := min_bytes_per_line })
    else if image.bytes_per_line < min_bytes_per_line then (false, image)
    else (true, image)

/-! ## The window -/

/-- Outcomes decided outside the repository. -/
structure Env where
  /-- Xlib `XInitImage(&image)`: status and the image as initialised. -/
  XInitImage : XImage → Bool × XImage
  /-- Skia `SkBitmap::installPixels(info, pixels, rowBytes)`, given the size of
  the vector whose element 0 is passed as `pixels`. -/
  installPixels : SkImageInfo → Nat → Nat → Bool

/-- The class `SkiaWindow`: the display it belongs to, the scale of the X11
window and the size of the scratch vector `m_buffer`. -/
structure SkiaWindow where
  m_display : DisplayId
  scale : Int
  m_buffer : Nat
deriving DecidableEq

/-- The local `requiredSize` of the scaled path of `onPaint`. -/
def requiredSize (bitmap : SkBitmap) (rc : Rect) : Nat :=
  let info := SkImageInfo.Make rc.w rc.h bitmap.info.bytesPerPixel bitmap.info.alphaType
  info.computeByteSize info.minRowBytes

/-- The method `SkiaWindow::onPaint(rc)`, painting the bitmap of the display's
surface: the window afterwards and the calls issued, in order. -/
def SkiaWindow.onPaint (env : Env) (bitmap : SkBitmap) (win : SkiaWindow) (rc : Rect) :
    SkiaWindow × List Call :=
  let scale := win.scale
  if scale = 1 then
    match convert_skia_bitmap_to_ximage env.XInitImage bitmap with
    | (true, image) => (win, [Call.XPutImage image rc.x rc.y rc.x rc.y rc.w rc.h])
    | (false, _) => (win, [])
  else
    let info := SkImageInfo.Make rc.w rc.h bitmap.info.bytesPerPixel bitmap.info.alphaType
    let rowBytes := info.minRowBytes
    let requiredSize := info.computeByteSize rowBytes
    let win1 : SkiaWindow :=
      if requiredSize > win.m_buffer then { win with m_buffer := requiredSize } else win
    let install := Call.installPixels info win1.m_buffer rowBytes
    if env.installPixels info win1.m_buffer rowBytes then
      let scaled : SkBitmap := { info := info, rowBytes := rowBytes, pixels := Pixels.scratch }
      let srcRect : SkIRect :=
        ⟨rc.x.tdiv scale, rc.y.tdiv scale, rc.w.tdiv scale, rc.h.tdiv scale⟩
      let dstRect : SkIRect := ⟨0, 0, rc.w, rc.h⟩
      let draw := Call.drawBitmapRect srcRect dstRect
      match convert_skia_bitmap_to_ximage env.XInitImage scaled with
      | (true, image) => (win1, [install, draw, Call.XPutImage image 0 0 rc.x rc.y rc.w rc.h])
      | (false, _) => (win1, [install, draw])
    else (win1, [install])

/-- A run of paint cycles on one window; each cycle has the surface bitmap of
that moment and the damaged rectangle.  Returns the window after the run. -/
def paintCycles (env : Env) (win : SkiaWindow) (cycles : List (SkBitmap × Rect)) : SkiaWindow :=
  cycles.foldl (fun w c => (w.onPaint env c.1 c.2).1) win

/-! ## The resize path -/

/-- What `onResize` and `onQueueEvent` act on besides the window: the event
queue, the size of the window's display, and the calls issued so far. -/
structure World where
  queue : List Event
  displaySize : Size
  calls : List Call
deriving DecidableEq

/-- Whether `e` is a `ResizeDisplay` event of display `d`. -/
def isResizeOf (d : Option DisplayId) (e : Event) : Bool :=
  e.type == EventType.ResizeDisplay && e.display == d

/-- Number of `ResizeDisplay` events of display `d` outstanding in a queue. -/
def pendingCount (d : Option DisplayId) (queue : List Event) : Nat :=
  queue.countP (isResizeOf d)

/-- Modelled from the spec: `EventQueueWithResizeDisplay::setResizeDisplayEvent`
(`os/common/event_queue_with_resize_display.h` is not among the sources).  With
no pending resize event for the event's display, the event is enqueued and the
result is `true` (a new event); with one pending, the queued event is replaced
in place, nothing is enqueued, and the result is `false`. -/
def setResizeDisplayEvent (queue : List Event) (ev : Event) : Bool × List Event :=
  if queue.any (isResizeOf ev.display) then
    (false, queue.map (fun e => if isResizeOf ev.display e then ev else e))
  else
    (true, queue ++ [ev])

/-- Modelled from the spec: `EventQueue::queueEvent` (`os/event_queue.h` is not
among the sources), the ordered FIFO queue: the event goes to the back. -/
def queueEvent (queue : List Event) (ev : Event) : List Event :=
  queue ++ [ev]

/-- Modelled from the spec: `EventQueue::getEvent` (`os/event_queue.h` is not
among the sources), the consumer side of the FIFO queue: the front event, if
any, and the rest of the queue. -/
def getEvent (queue : List Event) : Option Event × List Event :=
  match queue with
  | [] => (none, [])
  | e :: rest => (some e, rest)

/-- Modelled from the spec: `SkiaDisplay::resize` (`os/skia/skia_display.cpp`
is not among the sources): the display takes the new size. -/
def Display.resize (d : DisplayId) (world : World) (sz : Size) : World :=
  { world with displaySize := sz, calls := world.calls ++ [Call.resize d sz] }

/-- Modelled from the spec: `ResizeSurface::make` (`os/skia/resize_surface.h` is
not among the sources): caches the current content of the display's surface;
neither queue nor display size changes. -/
def ResizeSurface.make (d : DisplayId) (world : World) : World :=
  { world with calls := world.calls ++ [Call.make d] }

/-- Modelled from the spec: `ResizeSurface::draw` (`os/skia/resize_surface.h` is
not among the sources): redraws the display's surface, at its current size,
from the cached content; neither queue nor display size changes. -/
def ResizeSurface.draw (d : DisplayId) (world : World) : World :=
  { world with calls := world.calls ++ [Call.draw d] }

/-- Modelled from the spec: the payload of a `ResizeDisplay` event when it is
dispatched is the size that is current at that moment.  The event built by
`onResize` stores its display and no size, so the size is read through the
display. -/
def payload (win : SkiaWindow) (world : World) (ev : Event) : Option Size :=
  if isResizeOf (some win.m_display) ev then some world.displaySize else none

/-- The method `SkiaWindow::onQueueEvent(ev)`. -/
def SkiaWindow.onQueueEvent (win : SkiaWindow) (world : World) (ev : Event) : World :=
  let ev := ev.setDisplay win.m_display
  { world with queue := queueEvent world.queue ev, calls := world.calls ++ [Call.queueEvent ev] }

/-- The event that `SkiaWindow::onResize` builds. -/
def SkiaWindow.resizeEvent (win : SkiaWindow) : Event :=
  (Event.new.setType EventType.ResizeDisplay).setDisplay win.m_display

/-- The method `SkiaWindow::onResize(sz)`. -/
def SkiaWindow.onResize (win : SkiaWindow) (world : World) (sz : Size) : World :=
  let ev := win.resizeEvent
  let r := setResizeDisplayEvent world.queue ev
  let isNewEvent := r.1
  let world1 : World :=
    { world with queue := r.2, calls := world.calls ++ [Call.setResizeDisplayEvent ev] }
  let world2 := if isNewEvent then ResizeSurface.make win.m_display world1 else world1
  let world3 := Display.resize win.m_display world2 sz
  if !isNewEvent then ResizeSurface.draw win.m_display world3 else world3

/-- A burst of resize notifications delivered to one window, none dequeued in
between. -/
def resizeBurst (win : SkiaWindow) (world : World) (sizes : List Size) : World :=
  sizes.foldl (fun w sz => win.onResize w sz) world

/-- Number of synchronous redraws (`m_resizeSurface.draw`) among recorded calls. -/
def redraws (calls : List Call) : Nat :=
  calls.countP (fun c => match c with | Call.draw _ => true | _ => false)

/-- Number of events put on the queue directly (`queueEvent`) among recorded calls. -/
def directEnqueues (calls : List Call) : Nat :=
  calls.countP (fun c => match c with | Call.queueEvent _ => true | _ => false)

/-- Number of events handed to `setResizeDisplayEvent` among recorded calls. -/
def handedToCoalescer (calls : List Call) : Nat :=
  calls.countP (fun c => match c with | Call.setResizeDisplayEvent _ => true | _ => false)

/-! ## Concrete inputs used in the examples -/

/-- An environment in which `XInitImage` behaves as in Xlib and `installPixels`
succeeds. -/
def xlibEnv : Env := { XInitImage := XInitImage_xlib, installPixels := fun _ _ _ => true }

/-- A tightly packed 100x100 surface bitmap with 4 bytes per pixel. -/
def surface100 : SkBitmap :=
  { info := SkImageInfo.Make 100 100 4 1, rowBytes := 400, pixels := Pixels.surface }

/-- A 10x10 surface bitmap with 2 bytes per pixel and rows 64 bytes apart. -/
def surface565 : SkBitmap :=
  { info := SkImageInfo.Make 10 10 2 1, rowBytes := 64, pixels := Pixels.surface }

/-- A tightly packed 10x10 surface bitmap with 2 bytes per pixel. -/
def packed565 : SkBitmap :=
  { info := SkImageInfo.Make 10 10 2 1, rowBytes := 20, pixels := Pixels.surface }

/-- A window of display 7 at the given scale with an empty scratch vector. -/
def windowAt (scale : Int) : SkiaWindow := { m_display := 7, scale := scale, m_buffer := 0 }

/-- A world with an empty queue and an 800x600 display. -/
def world800 : World := { queue := [], displaySize := ⟨800, 600⟩, calls := [] }

/-! ## The native image adapter: theorems -/

/-- C5: for a pixel buffer with 4 bytes per pixel, row stride `S` and width `W`
with `S ≥ 4 * W`, the descriptor that `convert_skia_bitmap_to_ximage` hands to
`XInitImage` has `bytes_per_line = S - 4 * W`, a non-negative value that is zero
exactly when the buffer is tightly packed (`S = 4 * W`). -/
theorem convert_stride_four_bytes (bitmap : SkBitmap) (hbpp : bitmap.bytesPerPixel = 4)
    (hS : 4 * bitmap.width ≤ (bitmap.rowBytes : Int)) :
    (∀ XInitImage : XImage → Bool × XImage,
        convert_skia_bitmap_to_ximage XInitImage bitmap = XInitImage (ximage_of_bitmap bitmap)) ∧
    (ximage_of_bitmap bitmap).bytes_per_line = (bitmap.rowBytes : Int) - 4 * bitmap.width ∧
    0 ≤ (ximage_of_bitmap bitmap).bytes_per_line ∧
    ((ximage_of_bitmap bitmap).bytes_per_line = 0 ↔ (bitmap.rowBytes : Int) = 4 * bitmap.width) ∧
    (ximage_of_bitmap bitmap).bits_per_pixel = 32 := by
  refine ⟨fun _ => rfl, rfl, ?_, ?_, ?_⟩
  · show 0 ≤ (bitmap.rowBytes : Int) - 4 * bitmap.width
    omega
  · show (bitmap.rowBytes : Int) - 4 * bitmap.width = 0 ↔ (bitmap.rowBytes : Int) = 4 * bitmap.width
    omega
  · show 8 * bitmap.bytesPerPixel = 32
    rw [hbpp]; rfl

/-- Witness of C5 on the tightly packed 100x100 surface: stride `400 - 4 * 100 = 0`. -/
theorem convert_stride_four_bytes_witness :
    surface100.bytesPerPixel = 4 ∧ 4 * surface100.width ≤ (surface100.rowBytes : Int) ∧
    (ximage_of_bitmap surface100).bytes_per_line = 0 :=
  ⟨by decide, by decide,
    ((convert_stride_four_bytes surface100 (by decide) (by decide)).2.2.2.1).mpr (by decide)⟩

/-- C6, counterexample: the 10x10 buffer with 2 bytes per pixel and rows 64 bytes
apart is not rejected.  With Xlib's `XInitImage`, and with an `XInitImage` that
accepts every descriptor, `convert_skia_bitmap_to_ximage` reports success, and the
descriptor carries the stride `64 - 4 * 10 = 24`. -/
theorem convert_accepts_two_bytes_per_pixel :
    surface565.bytesPerPixel ≠ 4 ∧
    (convert_skia_bitmap_to_ximage XInitImage_xlib surface565).1 = true ∧
    (convert_skia_bitmap_to_ximage XInitImage_xlib surface565).2.bytes_per_line = 24 ∧
    (convert_skia_bitmap_to_ximage (fun image => (true, image)) surface565).1 = true ∧
    (convert_skia_bitmap_to_ximage (fun image => (true, image)) surface565).2.bytes_per_line
      = (surface565.rowBytes : Int) - 4 * surface565.width := by
  decide

/-- Xlib's `XInitImage` on the descriptor of a pixel buffer whose bytes per pixel
are neither 1, 2 nor 4: the descriptor is refused for its pad and unit. -/
theorem xlib_refuses_other_pixel_sizes (bitmap : SkBitmap)
    (h1 : bitmap.bytesPerPixel ≠ 1) (h2 : bitmap.bytesPerPixel ≠ 2)
    (h4 : bitmap.bytesPerPixel ≠ 4) :
    (XInitImage_xlib (ximage_of_bitmap bitmap)).1 = false := by
  have hpad : (8 * bitmap.bytesPerPixel ≠ 8 ∧ 8 * bitmap.bytesPerPixel ≠ 16
      ∧ 8 * bitmap.bytesPerPixel ≠ 32) := by
    refine ⟨?_, ?_, ?_⟩ <;> omega
  unfold XInitImage_xlib ximage_of_bitmap
  dsimp only
  rw [if_pos (Or.inr (Or.inr (Or.inr (Or.inr (Or.inr (Or.inr (Or.inr (Or.inl hpad))))))))]

/-- Xlib's `XInitImage` on the descriptor of a pixel buffer with 1 or 2 bytes per
pixel whose row stride is neither `4 * width` nor at least
`(4 + bytesPerPixel) * width`: the descriptor is refused for its line length. -/
theorem xlib_refuses_short_lines (bitmap : SkBitmap)
    (hsmall : bitmap.bytesPerPixel = 1 ∨ bitmap.bytesPerPixel = 2)
    (hne : (bitmap.rowBytes : Int) ≠ 4 * bitmap.width)
    (hlt : (bitmap.rowBytes : Int) < (4 + bitmap.bytesPerPixel) * bitmap.width) :
    (XInitImage_xlib (ximage_of_bitmap bitmap)).1 = false := by
  have hrow : (0 : Int) ≤ bitmap.rowBytes := Int.ofNat_nonneg _
  have hw : 0 < bitmap.width := by
    rcases hsmall with h | h <;> rw [h] at hlt <;> omega
  have hline : (bitmap.rowBytes : Int) - 4 * bitmap.width ≠ 0 := by omega
  have hmin : (bitmap.rowBytes : Int) - 4 * bitmap.width
      < ROUNDUP (8 * bitmap.bytesPerPixel * bitmap.width) (8 * bitmap.bytesPerPixel) := by
    unfold ROUNDUP
    rcases hsmall with h | h
    · rw [h] at hlt ⊢
      rw [Int.tdiv_eq_ediv (by omega) (by omega), Int.tdiv_eq_ediv (by omega) (by omega)]
      omega
    · rw [h] at hlt ⊢
      rw [Int.tdiv_eq_ediv (by omega) (by omega), Int.tdiv_eq_ediv (by omega) (by omega)]
      omega
  unfold XInitImage_xlib ximage_of_bitmap
  dsimp only
  split_ifs <;> rfl

/-- C6, amended: `convert_skia_bitmap_to_ximage` has no check of the bytes per
pixel of its own; its status is the status of `XInitImage` for the descriptor it
hands over.  With Xlib's `XInitImage`, a pixel buffer whose bytes per pixel are
not exactly 4 is rejected whenever its bytes per pixel are neither 1 nor 2, and
whenever its row stride is neither `4 * width` nor at least
`(4 + bytesPerPixel) * width`; in particular every tightly packed buffer
(`rowBytes = bytesPerPixel * width`, `width > 0`) is rejected.  Nothing is said
about a buffer outside these cases. -/
theorem convert_rejects_non_four_bytes (bitmap : SkBitmap)
    (hbpp : bitmap.bytesPerPixel ≠ 4) :
    (∀ XInitImage : XImage → Bool × XImage,
      (convert_skia_bitmap_to_ximage XInitImage bitmap).1
        = (XInitImage (ximage_of_bitmap bitmap)).1) ∧
    (bitmap.bytesPerPixel ≠ 1 ∧ bitmap.bytesPerPixel ≠ 2 →
      (convert_skia_bitmap_to_ximage XInitImage_xlib bitmap).1 = false) ∧
    ((bitmap.rowBytes : Int) ≠ 4 * bitmap.width ∧
        (bitmap.rowBytes : Int) < (4 + bitmap.bytesPerPixel) * bitmap.width →
      (convert_skia_bitmap_to_ximage XInitImage_xlib bitmap).1 = false) ∧
    (0 < bitmap.width ∧ (bitmap.rowBytes : Int) = bitmap.bytesPerPixel * bitmap.width →
      (convert_skia_bitmap_to_ximage XInitImage_xlib bitmap).1 = false) := by
  have hshort : (bitmap.rowBytes : Int) ≠ 4 * bitmap.width ∧
        (bitmap.rowBytes : Int) < (4 + bitmap.bytesPerPixel) * bitmap.width →
      (convert_skia_bitmap_to_ximage XInitImage_xlib bitmap).1 = false := by
    intro h
    by_cases hsmall : bitmap.bytesPerPixel = 1 ∨ bitmap.bytesPerPixel = 2
    · exact xlib_refuses_short_lines bitmap hsmall h.1 h.2
    · exact xlib_refuses_other_pixel_sizes bitmap (fun h1 => hsmall (Or.inl h1))
        (fun h2 => hsmall (Or.inr h2)) hbpp
  refine ⟨fun _ => rfl, fun h => xlib_refuses_other_pixel_sizes bitmap h.1 h.2 hbpp, hshort, ?_⟩
  intro hpacked
  obtain ⟨hw, hrow⟩ := hpacked
  have hnn : (0 : Int) ≤ bitmap.bytesPerPixel := Int.ofNat_nonneg _
  apply hshort
  rw [hrow]
  constructor
  · intro heq
    have : (bitmap.bytesPerPixel - 4) * bitmap.width = 0 := by linarith
    rcases Int.mul_eq_zero.mp this with h | h
    · exact hbpp (by omega)
    · omega
  · nlinarith

/-- Witness of C6 amended: the tightly packed 10x10 buffer with 2 bytes per pixel
(rows 20 bytes apart) is rejected. -/
theorem convert_rejects_non_four_bytes_witness :
    packed565.bytesPerPixel ≠ 4 ∧
    (0 < packed565.width ∧ (packed565.rowBytes : Int) = packed565.bytesPerPixel * packed565.width) ∧
    (convert_skia_bitmap_to_ximage XInitImage_xlib packed565).1 = false :=
  ⟨by decide, by decide,
    (convert_rejects_non_four_bytes packed565 (by decide)).2.2.2 (by decide)⟩

/-! ## The blit engine: theorems -/

/-- The window left by the growth step of the scaled path of `onPaint`. -/
theorem grown_window (win : SkiaWindow) (required : Nat) :
    (if required > win.m_buffer then { win with m_buffer := required } else win)
      = { win with m_buffer := max win.m_buffer required } := by
  by_cases h : required > win.m_buffer
  · rw [if_pos h, max_eq_right (Nat.le_of_lt h)]
  · rw [if_neg h, max_eq_left (Nat.le_of_not_lt h)]

/-- A paint cycle on the scaled path, by the outcomes of `installPixels` and of
the adapter: the window keeps everything but `m_buffer`, which becomes the
larger of its old size and the required size. -/
theorem onPaint_scaled (env : Env) (bitmap : SkBitmap) (win : SkiaWindow) (rc : Rect)
    (hscale : win.scale ≠ 1) :
    win.onPaint env bitmap rc =
      ({ win with m_buffer := max win.m_buffer (requiredSize bitmap rc) },
        if env.installPixels
            (SkImageInfo.Make rc.w rc.h bitmap.info.bytesPerPixel bitmap.info.alphaType)
            (max win.m_buffer (requiredSize bitmap rc))
            (SkImageInfo.Make rc.w rc.h bitmap.info.bytesPerPixel bitmap.info.alphaType).minRowBytes
        then
          if (convert_skia_bitmap_to_ximage env.XInitImage
              ⟨SkImageInfo.Make rc.w rc.h bitmap.info.bytesPerPixel bitmap.info.alphaType,
                (SkImageInfo.Make rc.w rc.h bitmap.info.bytesPerPixel
                  bitmap.info.alphaType).minRowBytes, Pixels.scratch⟩).1
          then
            [Call.installPixels
                (SkImageInfo.Make rc.w rc.h bitmap.info.bytesPerPixel bitmap.info.alphaType)
                (max win.m_buffer (requiredSize bitmap rc))
                (SkImageInfo.Make rc.w rc.h bitmap.info.bytesPerPixel
                  bitmap.info.alphaType).minRowBytes,
              Call.drawBitmapRect
                ⟨rc.x.tdiv win.scale, rc.y.tdiv win.scale, rc.w.tdiv win.scale,
                  rc.h.tdiv win.scale⟩
                ⟨0, 0, rc.w, rc.h⟩,
              Call.XPutImage
                (convert_skia_bitmap_to_ximage env.XInitImage
                  ⟨SkImageInfo.Make rc.w rc.h bitmap.info.bytesPerPixel bitmap.info.alphaType,
                    (SkImageInfo.Make rc.w rc.h bitmap.info.bytesPerPixel
                      bitmap.info.alphaType).minRowBytes, Pixels.scratch⟩).2
                0 0 rc.x rc.y rc.w rc.h]
          else
            [Call.installPixels
                (SkImageInfo.Make rc.w rc.h bitmap.info.bytesPerPixel bitmap.info.alphaType)
                (max win.m_buffer (requiredSize bitmap rc))
                (SkImageInfo.Make rc.w rc.h bitmap.info.bytesPerPixel
                  bitmap.info.alphaType).minRowBytes,
              Call.drawBitmapRect
                ⟨rc.x.tdiv win.scale, rc.y.tdiv win.scale, rc.w.tdiv win.scale,
                  rc.h.tdiv win.scale⟩
                ⟨0, 0, rc.w, rc.h⟩]
        else
          [Call.installPixels
              (SkImageInfo.Make rc.w rc.h bitmap.info.bytesPerPixel bitmap.info.alphaType)
              (max win.m_buffer (requiredSize bitmap rc))
              (SkImageInfo.Make rc.w rc.h bitmap.info.bytesPerPixel
                bitmap.info.alphaType).minRowBytes]) := by
  have hmax := grown_window win (requiredSize bitmap rc)
  unfold requiredSize at hmax ⊢
  unfold SkiaWindow.onPaint
  simp only [if_neg hscale]
  rw [hmax]
  split
  · split
    · next h => simp [h]
    · next h => simp [h]
  · rfl

/-- A paint cycle at scale 1, by the outcome of the adapter. -/
theorem onPaint_unscaled (env : Env) (bitmap : SkBitmap) (win : SkiaWindow) (rc : Rect)
    (hscale : win.scale = 1) :
    win.onPaint env bitmap rc =
      (win,
        if (convert_skia_bitmap_to_ximage env.XInitImage bitmap).1 then
          [Call.XPutImage (convert_skia_bitmap_to_ximage env.XInitImage bitmap).2
            rc.x rc.y rc.x rc.y rc.w rc.h]
        else []) := by
  unfold SkiaWindow.onPaint
  simp only [if_pos hscale]
  split
  · next h => simp [h]
  · next h => simp [h]

/-- A zero-area rectangle requires no scratch bytes. -/
theorem requiredSize_zero_area (bitmap : SkBitmap) (rc : Rect) (hzero : rc.w = 0 ∨ rc.h = 0) :
    requiredSize bitmap rc = 0 := by
  unfold requiredSize SkImageInfo.computeByteSize SkImageInfo.minRowBytes SkImageInfo.Make
  rcases hzero with h | h
  · simp [h]
  · simp [h]

/-- Row bytes and required size of a rectangle with positive extent. -/
theorem requiredSize_positive_area (bitmap : SkBitmap) (rc : Rect) (hw : 0 < rc.w) (hh : 0 < rc.h) :
    (((SkImageInfo.Make rc.w rc.h bitmap.info.bytesPerPixel
        bitmap.info.alphaType).minRowBytes : Nat) : Int) = rc.w * bitmap.info.bytesPerPixel ∧
    ((requiredSize bitmap rc : Nat) : Int) = rc.w * rc.h * bitmap.info.bytesPerPixel := by
  have hrow : 0 ≤ rc.w * (bitmap.info.bytesPerPixel : Int) :=
    Int.mul_nonneg (Int.le_of_lt hw) (Int.ofNat_nonneg _)
  have hne : rc.h ≠ 0 := fun h => by omega
  have hall : 0 ≤ (rc.h - 1) * (rc.w * (bitmap.info.bytesPerPixel : Int))
      + rc.w * (bitmap.info.bytesPerPixel : Int) :=
    Int.add_nonneg (Int.mul_nonneg (by omega) hrow) hrow
  unfold requiredSize SkImageInfo.computeByteSize SkImageInfo.minRowBytes SkImageInfo.Make
  simp only [if_neg hne]
  rw [Int.toNat_of_nonneg hrow, Int.toNat_of_nonneg hall]
  exact ⟨rfl, by ring⟩

/-- A run of paint cycles on the scaled path changes only `m_buffer`, folding
`max` over the sizes the cycles require. -/
theorem paintCycles_scaled (env : Env) (cycles : List (SkBitmap × Rect)) (win : SkiaWindow)
    (hscale : win.scale ≠ 1) :
    paintCycles env win cycles =
      { win with m_buffer :=
          (cycles.map (fun c => requiredSize c.1 c.2)).foldl max win.m_buffer } := by
  induction cycles generalizing win with
  | nil => rfl
  | cons c rest ih =>
    have hstep : paintCycles env win (c :: rest)
        = paintCycles env (win.onPaint env c.1 c.2).1 rest := rfl
    rw [hstep, onPaint_scaled env c.1 win c.2 hscale]
    exact ih _ hscale

/-- Folding `max` from `b` gives a bound that is at least `b`, at least every
element, and is `b` or one of the elements. -/
theorem foldl_max_spec (sizes : List Nat) (b : Nat) :
    b ≤ sizes.foldl max b ∧ (∀ n ∈ sizes, n ≤ sizes.foldl max b) ∧
    (sizes.foldl max b = b ∨ sizes.foldl max b ∈ sizes) := by
  induction sizes generalizing b with
  | nil => simp
  | cons a rest ih =>
    obtain ⟨h1, h2, h3⟩ := ih (max b a)
    refine ⟨le_trans (le_max_left b a) h1, ?_, ?_⟩
    · intro n hn
      rcases List.mem_cons.mp hn with rfl | hn
      · exact le_trans (le_max_right b n) h1
      · exact h2 n hn
    · rcases h3 with h3 | h3
      · rcases le_total b a with hba | hba
        · right
          rw [List.foldl_cons, h3, max_eq_right hba]
          exact List.mem_cons_self _ _
        · left
          rw [List.foldl_cons, h3, max_eq_left hba]
      · right
        exact List.mem_cons_of_mem _ h3

/-- C8: at scale 1, when the adapter succeeds, `onPaint` issues exactly one
`XPutImage`, of the image made from the display surface's own bitmap, with source
origin `(R.x, R.y)`, destination origin `(R.x, R.y)` and extent `(R.w, R.h)`; the
window, and so the scratch buffer, is unchanged and `installPixels` is not
called on it. -/
theorem onPaint_scale_one_identity (env : Env) (bitmap : SkBitmap) (win : SkiaWindow) (rc : Rect)
    (hscale : win.scale = 1)
    (hok : (convert_skia_bitmap_to_ximage env.XInitImage bitmap).1 = true) :
    win.onPaint env bitmap rc =
      (win, [Call.XPutImage (env.XInitImage (ximage_of_bitmap bitmap)).2
              rc.x rc.y rc.x rc.y rc.w rc.h]) ∧
    (ximage_of_bitmap bitmap).data = bitmap.pixels ∧
    (win.onPaint env bitmap rc).1.m_buffer = win.m_buffer ∧
    (∀ info size rowBytes,
      Call.installPixels info size rowBytes ∉ (win.onPaint env bitmap rc).2) := by
  have h := onPaint_unscaled env bitmap win rc hscale
  rw [if_pos hok] at h
  refine ⟨h, rfl, ?_, ?_⟩
  · rw [h]
  · intro info size rowBytes hmem
    rw [h] at hmem
    simp at hmem

/-- Witness of C8: the 100x100 surface painted at scale 1 for `R = (1,2,3,4)`. -/
theorem onPaint_scale_one_identity_witness :
    (windowAt 1).scale = 1 ∧
    (convert_skia_bitmap_to_ximage xlibEnv.XInitImage surface100).1 = true ∧
    (windowAt 1).onPaint xlibEnv surface100 ⟨1, 2, 3, 4⟩ =
      (windowAt 1, [Call.XPutImage (xlibEnv.XInitImage (ximage_of_bitmap surface100)).2
              1 2 1 2 3 4]) :=
  ⟨rfl, by decide,
    (onPaint_scale_one_identity xlibEnv surface100 (windowAt 1) ⟨1, 2, 3, 4⟩ rfl (by decide)).1⟩

/-- C3: at every scale `k > 1` and for every rectangle `R`, every
`drawBitmapRect` that `onPaint` issues has the source rectangle
`(R.x / k, R.y / k, R.w / k, R.h / k)`, with `/` truncating toward zero, and the
destination `(0, 0, R.w, R.h)`; and it is issued whenever `installPixels`
succeeds. -/
theorem onPaint_scaled_source_rect (env : Env) (bitmap : SkBitmap) (win : SkiaWindow) (rc : Rect)
    (hk : 1 < win.scale) :
    (∀ srcRect dstRect, Call.drawBitmapRect srcRect dstRect ∈ (win.onPaint env bitmap rc).2 →
      srcRect = ⟨rc.x.tdiv win.scale, rc.y.tdiv win.scale, rc.w.tdiv win.scale,
        rc.h.tdiv win.scale⟩ ∧ dstRect = ⟨0, 0, rc.w, rc.h⟩) ∧
    (env.installPixels
        (SkImageInfo.Make rc.w rc.h bitmap.info.bytesPerPixel bitmap.info.alphaType)
        (win.onPaint env bitmap rc).1.m_buffer
        (SkImageInfo.Make rc.w rc.h bitmap.info.bytesPerPixel bitmap.info.alphaType).minRowBytes
        = true →
      Call.drawBitmapRect
        ⟨rc.x.tdiv win.scale, rc.y.tdiv win.scale, rc.w.tdiv win.scale, rc.h.tdiv win.scale⟩
        ⟨0, 0, rc.w, rc.h⟩ ∈ (win.onPaint env bitmap rc).2) := by
  have hscale : win.scale ≠ 1 := fun h => by omega
  have h := onPaint_scaled env bitmap win rc hscale
  rw [h]
  constructor
  · intro srcRect dstRect hmem
    dsimp only at hmem
    split at hmem
    · split at hmem
      · simp at hmem
        exact hmem
      · simp at hmem
        exact hmem
    · simp at hmem
  · intro hin
    dsimp only at hin ⊢
    rw [if_pos hin]
    split <;> simp

/-- Witness of C3: scale 2 maps `(5,5,10,10)` to the source `(2,2,5,5)`,
`(0,0,200,200)` to `(0,0,100,100)`, and the negative origin `-5` to `-2`. -/
theorem onPaint_scaled_source_rect_witness :
    1 < (windowAt 2).scale ∧
    Call.drawBitmapRect ⟨2, 2, 5, 5⟩ ⟨0, 0, 10, 10⟩
      ∈ ((windowAt 2).onPaint xlibEnv surface100 ⟨5, 5, 10, 10⟩).2 ∧
    Call.drawBitmapRect ⟨0, 0, 100, 100⟩ ⟨0, 0, 200, 200⟩
      ∈ ((windowAt 2).onPaint xlibEnv surface100 ⟨0, 0, 200, 200⟩).2 ∧
    Call.drawBitmapRect ⟨-2, 3, 5, 5⟩ ⟨0, 0, 10, 10⟩
      ∈ ((windowAt 2).onPaint xlibEnv surface100 ⟨-5, 7, 10, 10⟩).2 :=
  ⟨by decide,
    (onPaint_scaled_source_rect xlibEnv surface100 (windowAt 2) ⟨5, 5, 10, 10⟩ (by decide)).2 rfl,
    (onPaint_scaled_source_rect xlibEnv surface100 (windowAt 2) ⟨0, 0, 200, 200⟩
      (by decide)).2 rfl,
    (onPaint_scaled_source_rect xlibEnv surface100 (windowAt 2) ⟨-5, 7, 10, 10⟩ (by decide)).2 rfl⟩

/-- C7, counterexample: for the zero-width rectangle `(0,0,0,10)` the call
`XPutImage` is issued, with extent `(0,10)`: at scale 1 on the surface image, and
at scale 2 on the scratch image. -/
theorem onPaint_zero_width_presents :
    (windowAt 1).onPaint xlibEnv surface100 ⟨0, 0, 0, 10⟩ =
      (windowAt 1,
        [Call.XPutImage (XInitImage_xlib (ximage_of_bitmap surface100)).2 0 0 0 0 0 10]) ∧
    Call.XPutImage
        (XInitImage_xlib (ximage_of_bitmap ⟨SkImageInfo.Make 0 10 4 1, 0, Pixels.scratch⟩)).2
        0 0 0 0 0 10
      ∈ ((windowAt 2).onPaint xlibEnv surface100 ⟨0, 0, 0, 10⟩).2 := by
  constructor
  · rfl
  · decide

/-- C7, amended: for every scale and every rectangle `R` with `R.w = 0` or
`R.h = 0`, `onPaint` leaves the window, and so the scratch buffer, unchanged,
and every `XPutImage` it issues carries the zero-area extent `(R.w, R.h)`.  The
call is not suppressed: at scale 1 it is issued whenever the adapter succeeds. -/
theorem onPaint_zero_area (env : Env) (bitmap : SkBitmap) (win : SkiaWindow) (rc : Rect)
    (hzero : rc.w = 0 ∨ rc.h = 0) :
    (win.onPaint env bitmap rc).1 = win ∧
    (∀ image sx sy dx dy w h,
      Call.XPutImage image sx sy dx dy w h ∈ (win.onPaint env bitmap rc).2 →
        w = rc.w ∧ h = rc.h ∧ w * h = 0) ∧
    (win.scale = 1 → (convert_skia_bitmap_to_ximage env.XInitImage bitmap).1 = true →
      (win.onPaint env bitmap rc).2 =
        [Call.XPutImage (env.XInitImage (ximage_of_bitmap bitmap)).2
          rc.x rc.y rc.x rc.y rc.w rc.h]) := by
  have harea : rc.w * rc.h = 0 := by
    rcases hzero with h | h
    · rw [h, Int.zero_mul]
    · rw [h, Int.mul_zero]
  by_cases hscale : win.scale = 1
  · have h := onPaint_unscaled env bitmap win rc hscale
    rw [h]
    refine ⟨rfl, ?_, ?_⟩
    · intro image sx sy dx dy w h hmem
      dsimp only at hmem
      split at hmem
      · simp at hmem
        obtain ⟨-, -, -, -, -, hw, hh⟩ := hmem
        subst hw hh
        exact ⟨rfl, rfl, harea⟩
      · simp at hmem
    · intro _ hok
      dsimp only
      rw [if_pos hok]
      rfl
  · have h := onPaint_scaled env bitmap win rc hscale
    rw [h, requiredSize_zero_area bitmap rc hzero]
    refine ⟨?_, ?_, fun h1 => absurd h1 hscale⟩
    · simp
    · intro image sx sy dx dy w h hmem
      dsimp only at hmem
      split at hmem
      · split at hmem
        · simp at hmem
          obtain ⟨-, -, -, -, -, hw, hh⟩ := hmem
          subst hw hh
          exact ⟨rfl, rfl, harea⟩
        · simp at hmem
      · simp at hmem

/-- Witness of C7 amended: scale 1, `R = (0,0,0,10)` on the 100x100 surface. -/
theorem onPaint_zero_area_witness :
    ((0 : Int) = 0 ∨ (10 : Int) = 0) ∧
    ((windowAt 1).onPaint xlibEnv surface100 ⟨0, 0, 0, 10⟩).1 = windowAt 1 ∧
    ((windowAt 1).onPaint xlibEnv surface100 ⟨0, 0, 0, 10⟩).2 =
      [Call.XPutImage (xlibEnv.XInitImage (ximage_of_bitmap surface100)).2 0 0 0 0 0 10] :=
  ⟨Or.inl rfl,
    (onPaint_zero_area xlibEnv surface100 (windowAt 1) ⟨0, 0, 0, 10⟩ (Or.inl rfl)).1,
    (onPaint_zero_area xlibEnv surface100 (windowAt 1) ⟨0, 0, 0, 10⟩ (Or.inl rfl)).2.2 rfl
      (by decide)⟩

/-- C4: on the scaled path, starting from an empty scratch buffer, the buffer
size after each cycle of a run is the maximum of its size before that cycle and
the bytes the cycle requires, so it never decreases; after the whole run it is
at least what every cycle required and, for a non-empty run, equal to what one of
them required, that is, the maximum over the run. -/
theorem scratch_buffer_is_running_max (env : Env) (win : SkiaWindow) (hscale : win.scale ≠ 1)
    (hempty : win.m_buffer = 0) (cycles : List (SkBitmap × Rect)) :
    (∀ (before : List (SkBitmap × Rect)) (c : SkBitmap × Rect),
      (paintCycles env win (before ++ [c])).m_buffer =
        max (paintCycles env win before).m_buffer (requiredSize c.1 c.2)) ∧
    (∀ (before : List (SkBitmap × Rect)) (c : SkBitmap × Rect),
      (paintCycles env win before).m_buffer ≤ (paintCycles env win (before ++ [c])).m_buffer) ∧
    (∀ c ∈ cycles, requiredSize c.1 c.2 ≤ (paintCycles env win cycles).m_buffer) ∧
    (cycles ≠ [] →
      ∃ c ∈ cycles, (paintCycles env win cycles).m_buffer = requiredSize c.1 c.2) ∧
    (cycles = [] → (paintCycles env win cycles).m_buffer = 0) := by
  have hstep : ∀ (before : List (SkBitmap × Rect)) (c : SkBitmap × Rect),
      (paintCycles env win (before ++ [c])).m_buffer =
        max (paintCycles env win before).m_buffer (requiredSize c.1 c.2) := by
    intro before c
    rw [paintCycles_scaled env _ win hscale, paintCycles_scaled env _ win hscale]
    simp [List.foldl_append]
  obtain ⟨-, hall, hone⟩ := foldl_max_spec (cycles.map (fun c => requiredSize c.1 c.2)) win.m_buffer
  rw [paintCycles_scaled env cycles win hscale]
  refine ⟨hstep, ?_, ?_, ?_, ?_⟩
  · intro before c
    rw [hstep]
    exact le_max_left _ _
  · intro c hc
    exact hall _ (List.mem_map_of_mem _ hc)
  · intro hne
    rcases hone with h | h
    · obtain ⟨c, rest, rfl⟩ := List.exists_cons_of_ne_nil hne
      refine ⟨c, List.mem_cons_self _ _, ?_⟩
      have hc := hall (requiredSize c.1 c.2) (by simp)
      dsimp only at h hc ⊢
      rw [h, hempty] at hc
      rw [h, hempty]
      omega
    · obtain ⟨c, hc, heq⟩ := List.mem_map.mp h
      exact ⟨c, hc, heq.symm⟩
  · intro hnil
    rw [hnil]
    exact hempty

/-- Witness of C4: at scale 2 a 200x200 cycle followed by a 10x10 cycle; the
buffer grows to 160000 bytes and stays there. -/
theorem scratch_buffer_is_running_max_witness :
    (windowAt 2).scale ≠ 1 ∧ (windowAt 2).m_buffer = 0 ∧
    (paintCycles xlibEnv (windowAt 2)
        ([(surface100, (⟨0, 0, 200, 200⟩ : Rect))] ++ [(surface100, ⟨5, 5, 10, 10⟩)])).m_buffer =
      max (paintCycles xlibEnv (windowAt 2) [(surface100, ⟨0, 0, 200, 200⟩)]).m_buffer
        (requiredSize surface100 ⟨5, 5, 10, 10⟩) ∧
    (paintCycles xlibEnv (windowAt 2) [(surface100, ⟨0, 0, 200, 200⟩)]).m_buffer = 160000 ∧
    requiredSize surface100 ⟨5, 5, 10, 10⟩ = 400 :=
  ⟨by decide, rfl,
    (scratch_buffer_is_running_max xlibEnv (windowAt 2) (by decide) rfl []).1
      [(surface100, ⟨0, 0, 200, 200⟩)] (surface100, ⟨5, 5, 10, 10⟩),
    by decide, by decide⟩

/-- C10: on the scaled path, for `R.w > 0`, `R.h > 0` and a surface with a
positive number of bytes per pixel, the row bytes are `R.w * bytesPerPixel`, the
required size is `R.w * R.h * bytesPerPixel`, which is at least 1, and after the
growth step `m_buffer` holds at least that many bytes whatever its size was
before; `installPixels` is called with that buffer, and every byte of the `R.h`
rows of `R.w` pixels lies inside it, element 0 included. -/
theorem scaled_install_in_bounds (env : Env) (bitmap : SkBitmap) (win : SkiaWindow) (rc : Rect)
    (hscale : win.scale ≠ 1) (hw : 0 < rc.w) (hh : 0 < rc.h)
    (hbpp : 0 < bitmap.info.bytesPerPixel) :
    (((SkImageInfo.Make rc.w rc.h bitmap.info.bytesPerPixel
        bitmap.info.alphaType).minRowBytes : Nat) : Int) = rc.w * bitmap.info.bytesPerPixel ∧
    ((requiredSize bitmap rc : Nat) : Int) = rc.w * rc.h * bitmap.info.bytesPerPixel ∧
    1 ≤ requiredSize bitmap rc ∧
    requiredSize bitmap rc ≤ (win.onPaint env bitmap rc).1.m_buffer ∧
    0 < (win.onPaint env bitmap rc).1.m_buffer ∧
    (win.onPaint env bitmap rc).2.head? =
      some (Call.installPixels
        (SkImageInfo.Make rc.w rc.h bitmap.info.bytesPerPixel bitmap.info.alphaType)
        (win.onPaint env bitmap rc).1.m_buffer
        (SkImageInfo.Make rc.w rc.h bitmap.info.bytesPerPixel bitmap.info.alphaType).minRowBytes) ∧
    (∀ row col : Nat, (row : Int) < rc.h →
      col < (SkImageInfo.Make rc.w rc.h bitmap.info.bytesPerPixel
        bitmap.info.alphaType).minRowBytes →
      row * (SkImageInfo.Make rc.w rc.h bitmap.info.bytesPerPixel
        bitmap.info.alphaType).minRowBytes + col < (win.onPaint env bitmap rc).1.m_buffer) := by
  obtain ⟨hrow, hreq⟩ := requiredSize_positive_area bitmap rc hw hh
  have hpos : (1 : Int) ≤ (requiredSize bitmap rc : Nat) := by
    rw [hreq]
    have h1 : (1 : Int) ≤ bitmap.info.bytesPerPixel := by exact_mod_cast hbpp
    have h2 : (1 : Int) ≤ rc.w * rc.h := by nlinarith
    nlinarith
  have hpos1 : 1 ≤ requiredSize bitmap rc := by exact_mod_cast hpos
  have hbuf : requiredSize bitmap rc ≤ (win.onPaint env bitmap rc).1.m_buffer := by
    rw [onPaint_scaled env bitmap win rc hscale]
    exact le_max_right _ _
  refine ⟨hrow, hreq, hpos1, hbuf, Nat.lt_of_lt_of_le hpos1 hbuf, ?_, ?_⟩
  · rw [onPaint_scaled env bitmap win rc hscale]
    dsimp only
    split
    · split <;> rfl
    · rfl
  · intro row col hr hc
    refine Nat.lt_of_lt_of_le ?_ hbuf
    have hc1 : ((col : Nat) : Int) < rc.w * bitmap.info.bytesPerPixel := by
      rw [← hrow]; exact_mod_cast hc
    have hgoal : ((row * (SkImageInfo.Make rc.w rc.h bitmap.info.bytesPerPixel
        bitmap.info.alphaType).minRowBytes + col : Nat) : Int) < (requiredSize bitmap rc : Nat) := by
      push_cast
      rw [hrow, hreq]
      have hr1 : (row : Int) + 1 ≤ rc.h := hr
      have hnn : 0 ≤ rc.w * (bitmap.info.bytesPerPixel : Int) :=
        Int.mul_nonneg (Int.le_of_lt hw) (Int.ofNat_nonneg _)
      nlinarith [Int.mul_le_mul_of_nonneg_right hr1 hnn]
    exact_mod_cast hgoal

/-- Witness of C10: scale 2, `R = (5,5,10,10)` on the 4-bytes-per-pixel surface:
400 bytes are required and the empty buffer is grown to hold them. -/
theorem scaled_install_in_bounds_witness :
    (windowAt 2).scale ≠ 1 ∧ (0 : Int) < 10 ∧ 0 < surface100.info.bytesPerPixel ∧
    requiredSize surface100 ⟨5, 5, 10, 10⟩ = 400 ∧
    requiredSize surface100 ⟨5, 5, 10, 10⟩
      ≤ ((windowAt 2).onPaint xlibEnv surface100 ⟨5, 5, 10, 10⟩).1.m_buffer :=
  ⟨by decide, by decide, by decide, by decide,
    (scaled_install_in_bounds xlibEnv surface100 (windowAt 2) ⟨5, 5, 10, 10⟩ (by decide)
      (by decide) (by decide) (by decide)).2.2.2.1⟩

/-! ## The resize path: theorems -/

/-- The event built by `onResize` is a `ResizeDisplay` event of the window's display. -/
theorem resizeEvent_isResizeOf (win : SkiaWindow) (d : Option DisplayId) :
    isResizeOf d win.resizeEvent = (some win.m_display == d) := by
  simp [isResizeOf, SkiaWindow.resizeEvent, Event.setDisplay, Event.setType, Event.new]

/-- The coalescer reports a new event exactly when no resize event of the
event's display is outstanding. -/
theorem setResizeDisplayEvent_new_iff (queue : List Event) (ev : Event) :
    (setResizeDisplayEvent queue ev).1 = true ↔ pendingCount ev.display queue = 0 := by
  unfold setResizeDisplayEvent pendingCount
  by_cases h : queue.any (isResizeOf ev.display) = true
  · rw [if_pos h]
    have hcount : ¬ List.countP (isResizeOf ev.display) queue = 0 := by
      rw [List.countP_eq_zero]
      intro hall
      obtain ⟨e, he, hp⟩ := List.any_eq_true.mp h
      exact hall e he hp
    simp [hcount]
  · rw [if_neg h]
    have hcount : List.countP (isResizeOf ev.display) queue = 0 := by
      rw [List.countP_eq_zero]
      intro e he hp
      exact h (List.any_eq_true.mpr ⟨e, he, hp⟩)
    simp [hcount]

/-- Outstanding resize events after the coalescer took a `ResizeDisplay` event:
one more for the event's display if it had none, otherwise no change. -/
theorem pendingCount_setResizeDisplayEvent (queue : List Event) (ev : Event)
    (htype : ev.type = EventType.ResizeDisplay) (d : Option DisplayId) :
    pendingCount d (setResizeDisplayEvent queue ev).2 =
      if d = ev.display then max 1 (pendingCount d queue) else pendingCount d queue := by
  have hev : isResizeOf d ev = (ev.display == d) := by
    simp [isResizeOf, htype]
  by_cases hnew : (setResizeDisplayEvent queue ev).1 = true
  · have hzero := (setResizeDisplayEvent_new_iff queue ev).mp hnew
    have hq : (setResizeDisplayEvent queue ev).2 = queue ++ [ev] := by
      unfold setResizeDisplayEvent at hnew ⊢
      split
      · next h => simp [h] at hnew
      · rfl
    rw [hq]
    unfold pendingCount at hzero ⊢
    rw [List.countP_append]
    by_cases hd : d = ev.display
    · subst hd
      rw [if_pos rfl, hzero]
      simp [List.countP_cons, hev]
    · rw [if_neg hd]
      have hd2 : ¬ ev.display = d := fun h => hd h.symm
      simp [List.countP_cons, hev, hd2]
  · have hpos : pendingCount ev.display queue ≠ 0 :=
      fun h => hnew ((setResizeDisplayEvent_new_iff queue ev).mpr h)
    have hq : (setResizeDisplayEvent queue ev).2
        = queue.map (fun e => if isResizeOf ev.display e then ev else e) := by
      unfold setResizeDisplayEvent at hnew ⊢
      split
      · rfl
      · next h => simp [h] at hnew
    have hsame : pendingCount d (queue.map (fun e => if isResizeOf ev.display e then ev else e))
        = pendingCount d queue := by
      unfold pendingCount
      rw [List.countP_map]
      apply List.countP_congr
      intro e _
      by_cases hp : isResizeOf ev.display e = true
      · have hp2 := hp
        simp only [isResizeOf, Bool.and_eq_true, beq_iff_eq] at hp2
        simp [hp, isResizeOf, htype, hp2.1, hp2.2]
      · simp [hp]
    rw [hq, hsame]
    by_cases hd : d = ev.display
    · subst hd
      rw [if_pos rfl]
      omega
    · rw [if_neg hd]

/-- One resize notification whose event is new: the event is enqueued, a snapshot
is made, and the display is resized; nothing is drawn. -/
theorem onResize_new (win : SkiaWindow) (world : World) (sz : Size)
    (hnew : (setResizeDisplayEvent world.queue win.resizeEvent).1 = true) :
    win.onResize world sz =
      { queue := (setResizeDisplayEvent world.queue win.resizeEvent).2
        displaySize := sz
        calls := world.calls ++ [Call.setResizeDisplayEvent win.resizeEvent,
          Call.make win.m_display, Call.resize win.m_display sz] } := by
  unfold SkiaWindow.onResize
  simp [hnew, ResizeSurface.make, Display.resize]

/-- One resize notification whose event was already pending: the display is
resized and then redrawn. -/
theorem onResize_pending (win : SkiaWindow) (world : World) (sz : Size)
    (hold : (setResizeDisplayEvent world.queue win.resizeEvent).1 = false) :
    win.onResize world sz =
      { queue := (setResizeDisplayEvent world.queue win.resizeEvent).2
        displaySize := sz
        calls := world.calls ++ [Call.setResizeDisplayEvent win.resizeEvent,
          Call.resize win.m_display sz, Call.draw win.m_display] } := by
  unfold SkiaWindow.onResize
  simp [hold, ResizeSurface.draw, Display.resize]

/-- The queue after one resize notification is the coalescer's queue. -/
theorem onResize_queue (win : SkiaWindow) (world : World) (sz : Size) :
    (win.onResize world sz).queue = (setResizeDisplayEvent world.queue win.resizeEvent).2 := by
  cases h : (setResizeDisplayEvent world.queue win.resizeEvent).1
  · rw [onResize_pending win world sz h]
  · rw [onResize_new win world sz h]

/-- The display size after one resize notification is the notified size. -/
theorem onResize_displaySize (win : SkiaWindow) (world : World) (sz : Size) :
    (win.onResize world sz).displaySize = sz := by
  cases h : (setResizeDisplayEvent world.queue win.resizeEvent).1
  · rw [onResize_pending win world sz h]
  · rw [onResize_new win world sz h]

/-- A burst extended by one notification. -/
theorem resizeBurst_append (win : SkiaWindow) (world : World) (sizes : List Size) (sz : Size) :
    resizeBurst win world (sizes ++ [sz]) = win.onResize (resizeBurst win world sizes) sz := by
  unfold resizeBurst
  rw [List.foldl_append]
  rfl

/-- Outstanding resize events after one resize notification. -/
theorem pendingCount_onResize (win : SkiaWindow) (world : World) (sz : Size)
    (d : Option DisplayId) :
    pendingCount d (win.onResize world sz).queue =
      if d = some win.m_display then max 1 (pendingCount d world.queue)
      else pendingCount d world.queue := by
  rw [onResize_queue]
  exact pendingCount_setResizeDisplayEvent world.queue win.resizeEvent rfl d

/-- A burst keeps at most one outstanding resize event per display. -/
theorem resizeBurst_pendingCount_le (win : SkiaWindow) (sizes : List Size) (world : World)
    (hinv : ∀ d, pendingCount d world.queue ≤ 1) (d : Option DisplayId) :
    pendingCount d (resizeBurst win world sizes).queue ≤ 1 := by
  induction sizes generalizing world with
  | nil => exact hinv d
  | cons sz rest ih =>
    apply ih (win.onResize world sz)
    intro d1
    rw [pendingCount_onResize]
    have h := hinv d1
    split <;> omega

/-- The calls of a burst: one event handed to the coalescer per notification,
nothing enqueued directly. -/
theorem resizeBurst_calls (win : SkiaWindow) (sizes : List Size) (world : World) :
    directEnqueues (resizeBurst win world sizes).calls = directEnqueues world.calls ∧
    handedToCoalescer (resizeBurst win world sizes).calls
      = handedToCoalescer world.calls + sizes.length := by
  induction sizes generalizing world with
  | nil => exact ⟨rfl, rfl⟩
  | cons sz rest ih =>
    obtain ⟨h1, h2⟩ := ih (win.onResize world sz)
    have hstep : directEnqueues (win.onResize world sz).calls = directEnqueues world.calls ∧
        handedToCoalescer (win.onResize world sz).calls = handedToCoalescer world.calls + 1 := by
      cases h : (setResizeDisplayEvent world.queue win.resizeEvent).1
      · rw [onResize_pending win world sz h]
        simp [directEnqueues, handedToCoalescer, List.countP_append, List.countP_cons]
      · rw [onResize_new win world sz h]
        simp [directEnqueues, handedToCoalescer, List.countP_append, List.countP_cons]
    have hb : resizeBurst win world (sz :: rest) = resizeBurst win (win.onResize world sz) rest :=
      rfl
    rw [hb, h1, h2, hstep.1, hstep.2, List.length_cons]
    exact ⟨rfl, by omega⟩

/-- Redraws of a burst that starts with a resize event already pending: one per
notification. -/
theorem resizeBurst_redraws_pending (win : SkiaWindow) (sizes : List Size) (world : World)
    (hpending : pendingCount (some win.m_display) world.queue ≠ 0) :
    redraws (resizeBurst win world sizes).calls = redraws world.calls + sizes.length := by
  induction sizes generalizing world with
  | nil => rfl
  | cons sz rest ih =>
    have hold : (setResizeDisplayEvent world.queue win.resizeEvent).1 = false := by
      cases h : (setResizeDisplayEvent world.queue win.resizeEvent).1
      · rfl
      · exact absurd ((setResizeDisplayEvent_new_iff _ _).mp h) hpending
    have hb : resizeBurst win world (sz :: rest) = resizeBurst win (win.onResize world sz) rest :=
      rfl
    have hnext : pendingCount (some win.m_display) (win.onResize world sz).queue ≠ 0 := by
      rw [pendingCount_onResize, if_pos rfl]
      omega
    rw [hb, ih _ hnext, onResize_pending win world sz hold, List.length_cons]
    simp [redraws, List.countP_append, List.countP_cons]
    omega

/-- C1, counterexample: starting from Idle on the 800x600 display, the first
notification `(801,600)` creates the pending event and issues no redraw (only
`make`, before the display is resized); the second finds the event pending and
redraws; the burst `(801,600)`, `(810,600)`, `(820,600)` redraws twice. -/
theorem onResize_burst_redraws_twice :
    (setResizeDisplayEvent world800.queue (windowAt 1).resizeEvent).1 = true ∧
    ((windowAt 1).onResize world800 ⟨801, 600⟩).calls =
      [Call.setResizeDisplayEvent (windowAt 1).resizeEvent, Call.make 7,
        Call.resize 7 ⟨801, 600⟩] ∧
    redraws ((windowAt 1).onResize world800 ⟨801, 600⟩).calls = 0 ∧
    (setResizeDisplayEvent ((windowAt 1).onResize world800 ⟨801, 600⟩).queue
      (windowAt 1).resizeEvent).1 = false ∧
    redraws (resizeBurst (windowAt 1) world800 [⟨801, 600⟩, ⟨810, 600⟩]).calls = 1 ∧
    redraws (resizeBurst (windowAt 1) world800 [⟨801, 600⟩, ⟨810, 600⟩, ⟨820, 600⟩]).calls
      = 2 := by
  decide

/-- C1, amended: when the notification creates a new pending event
(`setResizeDisplayEvent` returns true, which it does exactly in the Idle state)
`onResize` makes the snapshot and then resizes the display, without a redraw;
when an event is already pending (it returns false) `onResize` resizes the
display and then redraws it synchronously.  So a burst of `1 + n` notifications
starting from Idle redraws `n` times, never on the first notification. -/
theorem onResize_redraws_only_when_pending (win : SkiaWindow) (world : World) (sz : Size)
    (rest : List Size) :
    ((setResizeDisplayEvent world.queue win.resizeEvent).1 = true ↔
      pendingCount (some win.m_display) world.queue = 0) ∧
    ((setResizeDisplayEvent world.queue win.resizeEvent).1 = true →
      (win.onResize world sz).calls = world.calls ++
        [Call.setResizeDisplayEvent win.resizeEvent, Call.make win.m_display,
          Call.resize win.m_display sz] ∧
      redraws (win.onResize world sz).calls = redraws world.calls) ∧
    ((setResizeDisplayEvent world.queue win.resizeEvent).1 = false →
      (win.onResize world sz).calls = world.calls ++
        [Call.setResizeDisplayEvent win.resizeEvent, Call.resize win.m_display sz,
          Call.draw win.m_display] ∧
      redraws (win.onResize world sz).calls = redraws world.calls + 1) ∧
    (pendingCount (some win.m_display) world.queue = 0 →
      redraws (resizeBurst win world (sz :: rest)).calls = redraws world.calls + rest.length) := by
  have hiff := setResizeDisplayEvent_new_iff world.queue win.resizeEvent
  have hnewcalls : (setResizeDisplayEvent world.queue win.resizeEvent).1 = true →
      (win.onResize world sz).calls = world.calls ++
        [Call.setResizeDisplayEvent win.resizeEvent, Call.make win.m_display,
          Call.resize win.m_display sz] ∧
      redraws (win.onResize world sz).calls = redraws world.calls := by
    intro h
    rw [onResize_new win world sz h]
    simp [redraws, List.countP_append, List.countP_cons]
  refine ⟨hiff, hnewcalls, ?_, ?_⟩
  · intro h
    rw [onResize_pending win world sz h]
    simp [redraws, List.countP_append, List.countP_cons]
  · intro hidle
    have hb : resizeBurst win world (sz :: rest) = resizeBurst win (win.onResize world sz) rest :=
      rfl
    have hnext : pendingCount (some win.m_display) (win.onResize world sz).queue ≠ 0 := by
      rw [pendingCount_onResize, if_pos rfl]
      omega
    rw [hb, resizeBurst_redraws_pending win rest _ hnext, (hnewcalls (hiff.mpr hidle)).2]

/-- Witness of C1 amended: the burst `(801,600)`, `(810,600)`, `(820,600)` from
Idle redraws twice. -/
theorem onResize_redraws_only_when_pending_witness :
    pendingCount (some (windowAt 1).m_display) world800.queue = 0 ∧
    redraws (resizeBurst (windowAt 1) world800 [⟨801, 600⟩, ⟨810, 600⟩, ⟨820, 600⟩]).calls
      = redraws world800.calls + 2 :=
  ⟨rfl,
    (onResize_redraws_only_when_pending (windowAt 1) world800 ⟨801, 600⟩
      [⟨810, 600⟩, ⟨820, 600⟩]).2.2.2 rfl⟩

/-- A burst on a queue that holds just the window's resize event leaves it so. -/
theorem resizeBurst_queue_singleton (win : SkiaWindow) (sizes : List Size) (world : World)
    (hq : world.queue = [win.resizeEvent]) :
    (resizeBurst win world sizes).queue = [win.resizeEvent] := by
  induction sizes generalizing world with
  | nil => exact hq
  | cons sz rest ih =>
    apply ih (win.onResize world sz)
    rw [onResize_queue, hq]
    simp [setResizeDisplayEvent, isResizeOf, SkiaWindow.resizeEvent, Event.setDisplay,
      Event.setType, Event.new]

/-- C2: for every burst `S1..Sn` (`n ≥ 1`) of resize notifications delivered
through `onResize` with nothing dequeued in between, on a queue that holds at
most one `ResizeDisplay` event per display: after every number of notifications
at most one `ResizeDisplay` event per display is outstanding; after the burst
exactly one is outstanding for the window's display; the size it delivers when
dispatched is the last size `Sn`; `onResize` puts no event on the queue directly
and hands one event per notification to `setResizeDisplayEvent`.  From an empty
queue the consumer dequeues that one event and the queue is empty again. -/
theorem resize_burst_coalesced (win : SkiaWindow) (world : World)
    (hinv : ∀ d, pendingCount d world.queue ≤ 1) (sizes : List Size) (hne : sizes ≠ []) :
    (∀ n d, pendingCount d (resizeBurst win world (sizes.take n)).queue ≤ 1) ∧
    pendingCount (some win.m_display) (resizeBurst win world sizes).queue = 1 ∧
    (∀ e ∈ (resizeBurst win world sizes).queue, isResizeOf (some win.m_display) e = true →
      payload win (resizeBurst win world sizes) e = some (sizes.getLast hne)) ∧
    directEnqueues (resizeBurst win world sizes).calls = directEnqueues world.calls ∧
    handedToCoalescer (resizeBurst win world sizes).calls
      = handedToCoalescer world.calls + sizes.length ∧
    (world.queue = [] →
      getEvent (resizeBurst win world sizes).queue = (some win.resizeEvent, []) ∧
      payload win (resizeBurst win world sizes) win.resizeEvent = some (sizes.getLast hne)) := by
  have hlast : resizeBurst win world sizes
      = win.onResize (resizeBurst win world sizes.dropLast) (sizes.getLast hne) := by
    rw [← resizeBurst_append, List.dropLast_append_getLast hne]
  have hsize : (resizeBurst win world sizes).displaySize = sizes.getLast hne := by
    rw [hlast, onResize_displaySize]
  have hcalls := resizeBurst_calls win sizes world
  refine ⟨fun n d => resizeBurst_pendingCount_le win _ world hinv d, ?_, ?_, hcalls.1,
    hcalls.2, ?_⟩
  · have hle := resizeBurst_pendingCount_le win sizes.dropLast world hinv (some win.m_display)
    rw [hlast, pendingCount_onResize, if_pos rfl]
    omega
  · intro e _ he
    unfold payload
    rw [if_pos he, hsize]
  · intro hempty
    obtain ⟨sz, rest, rfl⟩ := List.exists_cons_of_ne_nil hne
    have hb : resizeBurst win world (sz :: rest) = resizeBurst win (win.onResize world sz) rest :=
      rfl
    have hfirst : (win.onResize world sz).queue = [win.resizeEvent] := by
      rw [onResize_queue, hempty]
      rfl
    constructor
    · rw [hb, resizeBurst_queue_singleton win rest _ hfirst]
      rfl
    · unfold payload
      rw [if_pos (by rw [resizeEvent_isResizeOf]; exact beq_self_eq_true _), hsize]

/-- Witness of C2: the burst `(801,600)`, `(810,600)`, `(820,600)` on the empty
queue leaves one event, dequeued with the size `(820,600)`. -/
theorem resize_burst_coalesced_witness :
    pendingCount (some (windowAt 1).m_display) world800.queue ≤ 1 ∧
    ([⟨801, 600⟩, ⟨810, 600⟩, ⟨820, 600⟩] : List Size) ≠ [] ∧
    pendingCount (some (windowAt 1).m_display)
      (resizeBurst (windowAt 1) world800 [⟨801, 600⟩, ⟨810, 600⟩, ⟨820, 600⟩]).queue = 1 ∧
    getEvent (resizeBurst (windowAt 1) world800 [⟨801, 600⟩, ⟨810, 600⟩, ⟨820, 600⟩]).queue
      = (some (windowAt 1).resizeEvent, []) ∧
    payload (windowAt 1) (resizeBurst (windowAt 1) world800 [⟨801, 600⟩, ⟨810, 600⟩, ⟨820, 600⟩])
      (windowAt 1).resizeEvent = some ⟨820, 600⟩ :=
  ⟨Nat.zero_le 1, by simp,
    (resize_burst_coalesced (windowAt 1) world800 (fun _ => Nat.zero_le 1)
      [⟨801, 600⟩, ⟨810, 600⟩, ⟨820, 600⟩] (by simp)).2.1,
    ((resize_burst_coalesced (windowAt 1) world800 (fun _ => Nat.zero_le 1)
      [⟨801, 600⟩, ⟨810, 600⟩, ⟨820, 600⟩] (by simp)).2.2.2.2.2 rfl).1,
    ((resize_burst_coalesced (windowAt 1) world800 (fun _ => Nat.zero_le 1)
      [⟨801, 600⟩, ⟨810, 600⟩, ⟨820, 600⟩] (by simp)).2.2.2.2.2 rfl).2⟩

/-- C9: after `onResize(S)` returns the display's size is `S`, whether the event
was new or already pending; hence after a burst ending in `S` the display's size
is `S`, and after `(801,600)`, `(810,600)`, `(820,600)` on the display that
started at `(800,600)` it is `(820,600)`. -/
theorem onResize_sets_display_size (win : SkiaWindow) (world : World) (sz : Size)
    (sizes : List Size) :
    (win.onResize world sz).displaySize = sz ∧
    (resizeBurst win world (sizes ++ [sz])).displaySize = sz ∧
    world800.displaySize = ⟨800, 600⟩ ∧
    (resizeBurst win world800 [⟨801, 600⟩, ⟨810, 600⟩, ⟨820, 600⟩]).displaySize = ⟨820, 600⟩ := by
  refine ⟨onResize_displaySize win world sz, ?_, rfl, ?_⟩
  · rw [resizeBurst_append, onResize_displaySize]
  · exact onResize_displaySize win _ _

end os
